import Mathlib

/-!
Verification of the HV_Dashboard repository: a shallow embedding of the
volatility-computation engine (src/hv_collector.py and
src/hv_screener_enhanced.py) together with proofs about the embedded
functions.

Numeric values are modelled as real numbers; a pandas NaN is modelled as
the value `none` of `Option ℝ`.  A dataframe column is modelled as a
`List (Option ℝ)` (or `List ℝ` when the source guarantees no NaN), rows
being identified by their position.
-/

namespace HVDash

/-- Sample standard deviation value of a list of reals, as computed by
pandas with the default `ddof = 1`: `sqrt (Σ (x - mean)^2 / (n - 1))`. -/
noncomputable def sampleStdVal (xs : List ℝ) : ℝ :=
  Real.sqrt (((xs.map (fun x => (x - xs.sum / (xs.length : ℝ)) ^ 2)).sum) /
    ((xs.length : ℝ) - 1))

/-- pandas standard deviation of a list of (non-NaN) observations:
NaN (`none`) when fewer than two observations are present (`ddof = 1`
makes the divisor zero), the sample standard deviation otherwise. -/
noncomputable def sampleStd (xs : List ℝ) : Option ℝ :=
  if xs.length < 2 then none else some (sampleStdVal xs)

namespace Screener

/-- Log return at row `i` of a close-price series, as produced by
`np.log(df.close / df.close.shift(1))` in
src/hv_screener_enhanced.py line 276: NaN (`none`) at row 0 (the shifted
series starts with NaN), `ln (close i / close (i-1))` afterwards. -/
noncomputable def logRetAt (closes : List ℝ) (i : ℕ) : Option ℝ :=
  if 1 ≤ i ∧ i < closes.length then
    some (Real.log (closes.getD i 0 / closes.getD (i - 1) 0))
  else none

/-- The full `log_ret` column. -/
noncomputable def logRets (closes : List ℝ) : List (Option ℝ) :=
  (List.range closes.length).map (logRetAt closes)

/-- The window of `w` entries of a column that a pandas rolling
computation inspects at row `i`: entries at positions `i+1-w, ..., i`. -/
noncomputable def rollingWindow (xs : List (Option ℝ)) (w i : ℕ) :
    List (Option ℝ) :=
  (List.range w).map (fun j => xs.getD (i + 1 - w + j) none)

/-- `xs.rolling(window := w).std()` at row `i` (pandas semantics with the
default `min_periods = w` and `ddof = 1`): defined only when the window is
complete (`w ≤ i + 1`, `i` in range) and every entry in the window is
non-NaN; the sample standard deviation of the window otherwise. -/
noncomputable def rollingStdAt (xs : List (Option ℝ)) (w i : ℕ) : Option ℝ :=
  if w ≤ i + 1 ∧ i < xs.length ∧ (rollingWindow xs w i).all Option.isSome then
    sampleStd (rollingWindow xs w i).reduceOption
  else none

/-- The `hv_w` column at row `i` of the screener
(src/hv_screener_enhanced.py line 283):
`df.log_ret.rolling(window := w).std() * sqrt 365`. -/
noncomputable def hvAt (closes : List ℝ) (w i : ℕ) : Option ℝ :=
  (rollingStdAt (logRets closes) w i).map (fun s => s * Real.sqrt 365)

/-- RMS blend of the `hv_a` and `hv_b` columns at row `i`
(src/hv_screener_enhanced.py lines 287 and 290):
`sqrt ((hv_a^2 + hv_b^2) / 2)`, NaN when either constituent is NaN. -/
noncomputable def rmsAt (closes : List ℝ) (a b i : ℕ) : Option ℝ :=
  match hvAt closes a i, hvAt closes b i with
  | some x, some y => some (Real.sqrt ((x ^ 2 + y ^ 2) / 2))
  | _, _ => none

/-- The representative `rms_vol` column (src/hv_screener_enhanced.py
lines 293-298): the (7,14) blend when both windows are configured,
else the (2,3) blend when both are configured, else NaN. -/
noncomputable def rmsVolAt (closes : List ℝ) (ws : List ℕ) (i : ℕ) :
    Option ℝ :=
  if 7 ∈ ws ∧ 14 ∈ ws then rmsAt closes 7 14 i
  else if 2 ∈ ws ∧ 3 ∈ ws then rmsAt closes 2 3 i
  else none

/-- `max(vol_windows)` (with 0 for an empty list). -/
def maxWindow (ws : List ℕ) : ℕ := ws.foldr max 0

/-- Whether row `i` survives the final `df.dropna()` of the screener's
`calculate_hv_metrics`: every computed column at that row must be
non-NaN (the `rms_2_3` and `rms_7_14` columns exist only when the
respective pair of windows is configured). -/
noncomputable def rowKept (closes : List ℝ) (ws : List ℕ) (i : ℕ) : Bool :=
  (logRetAt closes i).isSome
    && ws.all (fun w => (hvAt closes w i).isSome)
    && (if 2 ∈ ws ∧ 3 ∈ ws then (rmsAt closes 2 3 i).isSome else true)
    && (if 7 ∈ ws ∧ 14 ∈ ws then (rmsAt closes 7 14 i).isSome else true)
    && (rmsVolAt closes ws i).isSome

/-- The screener's `calculate_hv_metrics`
(src/hv_screener_enhanced.py lines 253-300), reduced to the set of row
indices of the returned dataframe: empty when the input is empty or has
fewer than `max(vol_windows) + 1` rows, otherwise the rows whose computed
columns are all non-NaN (the `dropna`). -/
noncomputable def calculate_hv_metrics (closes : List ℝ) (ws : List ℕ) :
    List ℕ :=
  if closes.length < Screener.maxWindow ws + 1 then []
  else (List.range closes.length).filter (rowKept closes ws)

end Screener

namespace Collector

/-- The last `w` elements of a list: pandas `df.tail(w)`. -/
def lastN (l : List α) (w : ℕ) : List α := l.drop (l.length - w)

/-- Log return at row `i` of a price series, as produced by
`np.log(prices / prices.shift(1))` in src/hv_collector.py line 61:
NaN (`none`) at row 0, `ln (price i / price (i-1))` afterwards. -/
noncomputable def logRetAt (prices : List ℝ) (i : ℕ) : Option ℝ :=
  if 1 ≤ i ∧ i < prices.length then
    some (Real.log (prices.getD i 0 / prices.getD (i - 1) 0))
  else none

/-- The full log-return column over a price slice. -/
noncomputable def logRets (prices : List ℝ) : List (Option ℝ) :=
  (List.range prices.length).map (logRetAt prices)

/-- `calculate_historical_volatility` (src/hv_collector.py lines 46-69):
NaN for fewer than two prices; otherwise the pandas standard deviation
(which skips the NaN first return and is itself NaN when fewer than two
returns remain) of the log returns of the given slice, times `sqrt 365`.
The `window` argument of the Python function is unused in its body. -/
noncomputable def calculate_historical_volatility (prices : List ℝ) :
    Option ℝ :=
  if prices.length < 2 then none
  else (sampleStd (logRets prices).reduceOption).map
    (fun s => s * Real.sqrt 365)

/-- The `hv_{w}d` field of the record for row `t` built by the
collector's `calculate_hv_metrics` (src/hv_collector.py lines 579-594):
the trailing slice is `price_data[date <= t].tail(w)`; when it holds at
least `max 2 (w / 2)` rows (integer division, as in `window // 2`) the
estimator runs on the slice, otherwise the field is NaN. -/
noncomputable def hvAt (prices : List ℝ) (w t : ℕ) : Option ℝ :=
  let hist := lastN (prices.take (t + 1)) w
  if max 2 (w / 2) ≤ hist.length then calculate_historical_volatility hist
  else none

/-- `calculate_parkinson_volatility` (src/hv_collector.py lines 600-627):
`sqrt (mean (ln (high/low) ^ 2) / (4 ln 2) * 365)`; the pandas mean of an
empty slice is NaN. -/
noncomputable def calculate_parkinson_volatility (highs lows : List ℝ) :
    Option ℝ :=
  if highs.length = 0 then none
  else some (Real.sqrt ((List.zipWith
    (fun h l => Real.log (h / l) ^ 2) highs lows).sum /
      (highs.length : ℝ) / (4 * Real.log 2) * 365))

/-- The `parkinson_vol_{w}d` field for row `t`
(src/hv_collector.py lines 588-590): computed over the high/low columns
of the same trailing slice `price_data[date <= t].tail(w)`, under the
same minimum-data gate on the slice length. -/
noncomputable def parkinsonAt (closes highs lows : List ℝ) (w t : ℕ) :
    Option ℝ :=
  if max 2 (w / 2) ≤ (lastN (closes.take (t + 1)) w).length then
    calculate_parkinson_volatility (lastN (highs.take (t + 1)) w)
      (lastN (lows.take (t + 1)) w)
  else none

/-- The `annualized_funding_rate` field for row `t`
(src/hv_collector.py lines 568-572): `funding_rate * 3 * 365`, present
only when the raw funding value at that row is not NaN. -/
noncomputable def annualizedFundingAt (fundings : List (Option ℝ)) (t : ℕ) :
    Option ℝ :=
  (fundings.getD t none).map (fun f => f * 3 * 365)

/-- Result of `collect_asset_data` for one asset: the provider tags
appended to `data_sources`, the resolved price series, and the list of
providers that were actually queried. -/
structure AssetResult where
  data_sources : List String
  price_data : Option (List ℝ)
  attempted : List String

/-- Acceptance test applied to each provider fetch in
`collect_asset_data`: the fetch must not have failed (`is not None`) and
the returned series must be non-empty (`len > 0`). -/
def acceptFetch : Option (List ℝ) → Option (List ℝ)
  | some d => if 0 < d.length then some d else none
  | none => none

/-- `collect_asset_data` (src/hv_collector.py lines 469-517): CoinGecko
is queried first (only when the asset has a usable CoinGecko id), then
Binance only if no data was resolved yet, then Kraken only if still
none; the first accepted series is stored and its provider tag alone is
appended to `data_sources`. -/
def collect_asset_data (hasCgId : Bool) (cg bin kr : Option (List ℝ)) :
    AssetResult :=
  let cgTried : List String := if hasCgId then ["coingecko"] else []
  match (if hasCgId then acceptFetch cg else none) with
  | some d =>
    { data_sources := ["coingecko"], price_data := some d,
      attempted := cgTried }
  | none =>
    match acceptFetch bin with
    | some d =>
      { data_sources := ["binance"], price_data := some d,
        attempted := cgTried ++ ["binance"] }
    | none =>
      match acceptFetch kr with
      | some d =>
        { data_sources := ["kraken"], price_data := some d,
          attempted := cgTried ++ ["binance", "kraken"] }
      | none =>
        { data_sources := [], price_data := none,
          attempted := cgTried ++ ["binance", "kraken"] }

end Collector

namespace Screener

/-- `d1` of src/hv_screener_enhanced.py line 324. -/
noncomputable def bs_d1 (S K T r sigma : ℝ) : ℝ :=
  (Real.log (S / K) + (r + 0.5 * sigma ^ 2) * T) / (sigma * Real.sqrt T)

/-- `d2` of src/hv_screener_enhanced.py line 325. -/
noncomputable def bs_d2 (S K T r sigma : ℝ) : ℝ :=
  bs_d1 S K T r sigma - sigma * Real.sqrt T

/-- `black_scholes` (src/hv_screener_enhanced.py lines 306-344),
parameterized by the external scipy functions `norm.cdf` (`Phi`) and
`norm.pdf` (`phi`).  Returns `(price, delta, gamma, theta, vega)`;
all five outputs are zero when `T ≤ 0` or `sigma ≤ 0`. -/
noncomputable def black_scholes (Phi phi : ℝ → ℝ)
    (S K T r sigma : ℝ) (option_type : String) :
    ℝ × ℝ × ℝ × ℝ × ℝ :=
  if T ≤ 0 ∨ sigma ≤ 0 then (0, 0, 0, 0, 0)
  else
    let d1 := bs_d1 S K T r sigma
    let d2 := bs_d2 S K T r sigma
    let price := if option_type = "call" then
        S * Phi d1 - K * Real.exp (-r * T) * Phi d2
      else K * Real.exp (-r * T) * Phi (-d2) - S * Phi (-d1)
    let delta := if option_type = "call" then Phi d1 else -Phi (-d1)
    let gamma := phi d1 / (S * sigma * Real.sqrt T)
    let vega := S * phi d1 * Real.sqrt T / 100
    let theta0 := -(S * phi d1 * sigma / (2 * Real.sqrt T)) / 365
    let theta := if option_type = "call" then
        theta0 - r * K * Real.exp (-r * T) * Phi d2 / 365
      else theta0 - r * K * Real.exp (-r * T) * Phi (-d2) / 365
    (price, delta, gamma, theta, vega)

end Screener

/-- The claimed value of `hv_w` at date `t`: the `w` trailing log
returns ending at date `t`, i.e. `ln (close (t-w+1+j) / close (t-w+j))`
for `j = 0, ..., w-1`.  This definition follows the words of the spec and
is compared against the embedded code. -/
noncomputable def trailingLogReturns (closes : List ℝ) (w t : ℕ) : List ℝ :=
  (List.range w).map (fun j =>
    Real.log (closes.getD (t + 1 - w + j) 0 / closes.getD (t - w + j) 0))

/-- The price series of the end-to-end scenario in the spec. -/
noncomputable def scenarioPrices : List ℝ := [100, 101, 99, 102, 98]

/-- A three-row price series used to probe the minimum-data policy. -/
noncomputable def threeObs : List ℝ := [1, 2, 1]

/-- The five-row series used to exhibit surviving screener rows. -/
noncomputable def fiveObs : List ℝ := [1, 2, 1, 2, 1]

lemma sampleStd_isSome_iff (xs : List ℝ) :
    (sampleStd xs).isSome ↔ 2 ≤ xs.length := by
  unfold sampleStd
  split <;> simp <;> omega

lemma sampleStdVal_eq_zero (xs : List ℝ) (h : ∀ x ∈ xs, x = 0) :
    sampleStdVal xs = 0 := by
  unfold sampleStdVal
  have hsum : xs.sum = 0 := List.sum_eq_zero h
  have hmap : (xs.map (fun x => (x - xs.sum / (xs.length : ℝ)) ^ 2)).sum = 0 := by
    apply List.sum_eq_zero
    intro y hy
    rcases List.mem_map.mp hy with ⟨x, hx, rfl⟩
    rw [h x hx, hsum]
    simp
  rw [hmap, zero_div, Real.sqrt_zero]

lemma reduceOption_map_some (l : List ℝ) :
    (l.map some).reduceOption = l := by
  induction l with
  | nil => rfl
  | cons a t ih => simp [List.reduceOption_cons_of_some, ih]

lemma reduceOption_length_of_all_isSome (l : List (Option ℝ))
    (h : l.all Option.isSome = true) : l.reduceOption.length = l.length := by
  induction l with
  | nil => rfl
  | cons a t ih =>
    rw [List.all_cons, Bool.and_eq_true] at h
    rcases h with ⟨ha, ht⟩
    cases a with
    | none => simp at ha
    | some x => simp [List.reduceOption_cons_of_some, ih ht]

lemma getD_of_take_eq {α : Type} {p q : List α} {t : ℕ}
    (h : p.take (t + 1) = q.take (t + 1))
    {k : ℕ} (hk : k ≤ t) (d : α) : p.getD k d = q.getD k d := by
  have hp : (p.take (t + 1))[k]? = p[k]? := List.getElem?_take_of_lt (by omega)
  have hq : (q.take (t + 1))[k]? = q[k]? := List.getElem?_take_of_lt (by omega)
  rw [List.getD_eq_getElem?_getD, List.getD_eq_getElem?_getD, ← hp, ← hq, h]

lemma length_min_of_take_eq {α : Type} {p q : List α} {t : ℕ}
    (h : p.take (t + 1) = q.take (t + 1)) :
    min (t + 1) p.length = min (t + 1) q.length := by
  have := congrArg List.length h
  simpa [List.length_take] using this

namespace Screener

lemma length_logRets (closes : List ℝ) :
    (logRets closes).length = closes.length := by
  simp [logRets]

lemma logRets_getD (closes : List ℝ) (j : ℕ) :
    (logRets closes).getD j none = logRetAt closes j := by
  by_cases hj : j < closes.length
  · rw [List.getD_eq_getElem?_getD, logRets, List.getElem?_map]
    have : (List.range closes.length)[j]? = some j := by
      simp [List.getElem?_range, hj]
    rw [this]
    rfl
  · have hlen : (logRets closes).length ≤ j := by
      rw [length_logRets]; omega
    rw [List.getD_eq_getElem?_getD, List.getElem?_eq_none_iff.mpr hlen]
    have : logRetAt closes j = none := by
      unfold logRetAt
      rw [if_neg]
      intro hc
      exact hj hc.2
    rw [this]
    rfl

lemma logRetAt_isSome_iff (closes : List ℝ) (i : ℕ) :
    (logRetAt closes i).isSome ↔ 1 ≤ i ∧ i < closes.length := by
  unfold logRetAt
  split <;> simp_all

lemma rollingWindow_logRets (closes : List ℝ) {w i : ℕ}
    (hwi : w ≤ i) (hin : i < closes.length) :
    rollingWindow (logRets closes) w i =
      (trailingLogReturns closes w i).map some := by
  unfold rollingWindow trailingLogReturns
  rw [List.map_map]
  apply List.map_congr_left
  intro j hj
  have hjw : j < w := List.mem_range.mp hj
  rw [logRets_getD]
  unfold logRetAt
  rw [if_pos (by omega)]
  have harg : i + 1 - w + j - 1 = i - w + j := by omega
  simp [harg]

lemma hvAt_eq_trailing (closes : List ℝ) {w i : ℕ} (h2 : 2 ≤ w)
    (hwi : w ≤ i) (hin : i < closes.length) :
    hvAt closes w i =
      some (sampleStdVal (trailingLogReturns closes w i) * Real.sqrt 365) := by
  unfold hvAt rollingStdAt
  rw [if_pos]
  · rw [rollingWindow_logRets closes hwi hin, reduceOption_map_some]
    have hlen : (trailingLogReturns closes w i).length = w := by
      simp [trailingLogReturns]
    unfold sampleStd
    rw [if_neg (by omega)]
    rfl
  · refine ⟨by omega, by rw [length_logRets]; exact hin, ?_⟩
    rw [rollingWindow_logRets closes hwi hin]
    simp

lemma hvAt_isSome_iff (closes : List ℝ) (w i : ℕ) :
    (hvAt closes w i).isSome ↔ 2 ≤ w ∧ w ≤ i ∧ i < closes.length := by
  constructor
  · intro h
    unfold hvAt rollingStdAt at h
    by_cases hc : w ≤ i + 1 ∧ i < (logRets closes).length ∧
        (rollingWindow (logRets closes) w i).all Option.isSome = true
    · rw [if_pos hc] at h
      rw [Option.isSome_map'] at h
      rw [sampleStd_isSome_iff] at h
      rw [reduceOption_length_of_all_isSome _ hc.2.2] at h
      have hwlen : (rollingWindow (logRets closes) w i).length = w := by
        simp [rollingWindow]
      rw [hwlen] at h
      have hin : i < closes.length := by
        have := hc.2.1
        rwa [length_logRets] at this
      refine ⟨h, ?_, hin⟩
      by_contra hwi
      have hw0 : w = i + 1 := by omega
      have hmem : (logRets closes).getD (i + 1 - w + 0) none ∈
          rollingWindow (logRets closes) w i := by
        unfold rollingWindow
        exact List.mem_map.mpr ⟨0, List.mem_range.mpr (by omega), rfl⟩
      have hz : (logRets closes).getD (i + 1 - w + 0) none = none := by
        rw [logRets_getD]
        unfold logRetAt
        rw [if_neg]
        intro hcc
        omega
      have := List.all_eq_true.mp hc.2.2 _ hmem
      rw [hz] at this
      simp at this
    · rw [if_neg hc] at h
      simp at h
  · rintro ⟨h2, hwi, hin⟩
    rw [hvAt_eq_trailing closes h2 hwi hin]
    rfl

end Screener

namespace Collector

lemma cLogRetAt_isSome_iff (prices : List ℝ) (i : ℕ) :
    (logRetAt prices i).isSome ↔ 1 ≤ i ∧ i < prices.length := by
  unfold logRetAt
  split <;> simp_all

lemma reduceOption_range_map_length (l : List ℝ) :
    ∀ m, m ≤ l.length →
      (((List.range m).map (logRetAt l)).reduceOption).length = m - 1 := by
  intro m
  induction m with
  | zero => simp
  | succ k ih =>
    intro h
    rw [List.range_succ, List.map_append, List.reduceOption_append,
      List.length_append, ih (by omega)]
    cases k with
    | zero =>
      have h0 : logRetAt l 0 = none := by
        unfold logRetAt
        rw [if_neg]
        omega
      simp [h0, List.reduceOption]
    | succ j =>
      have hs : (logRetAt l (j + 1)).isSome := by
        rw [cLogRetAt_isSome_iff]
        omega
      rcases Option.isSome_iff_exists.mp hs with ⟨x, hx⟩
      simp only [List.map_cons, List.map_nil, hx,
        List.reduceOption_cons_of_some, List.reduceOption_nil,
        List.length_cons, List.length_nil]
      omega

lemma reduceOption_logRets_length (l : List ℝ) :
    ((logRets l).reduceOption).length = l.length - 1 :=
  reduceOption_range_map_length l l.length le_rfl

lemma mem_reduceOption_logRets {l : List ℝ} {x : ℝ}
    (h : x ∈ (logRets l).reduceOption) :
    ∃ j, 1 ≤ j ∧ j < l.length ∧
      x = Real.log (l.getD j 0 / l.getD (j - 1) 0) := by
  rw [List.reduceOption_mem_iff] at h
  unfold logRets at h
  rcases List.mem_map.mp h with ⟨j, _, hj⟩
  unfold logRetAt at hj
  by_cases hc : 1 ≤ j ∧ j < l.length
  · rw [if_pos hc] at hj
    exact ⟨j, hc.1, hc.2, (Option.some_inj.mp hj).symm⟩
  · rw [if_neg hc] at hj
    exact absurd hj (by simp)

lemma calculate_historical_volatility_isSome_iff (l : List ℝ) :
    (calculate_historical_volatility l).isSome ↔ 3 ≤ l.length := by
  unfold calculate_historical_volatility
  by_cases hl : l.length < 2
  · rw [if_pos hl]
    simp
    omega
  · rw [if_neg hl, Option.isSome_map', sampleStd_isSome_iff,
      reduceOption_logRets_length]
    omega

lemma length_lastN (l : List α) (w : ℕ) :
    (lastN l w).length = min w l.length := by
  unfold lastN
  rw [List.length_drop]
  omega

lemma cHvAt_isSome_iff (prices : List ℝ) (w t : ℕ) (ht : t < prices.length) :
    (hvAt prices w t).isSome ↔ max 3 (w / 2) ≤ min (t + 1) w := by
  have hdef : hvAt prices w t =
      if max 2 (w / 2) ≤ (lastN (prices.take (t + 1)) w).length then
        calculate_historical_volatility (lastN (prices.take (t + 1)) w)
      else none := rfl
  have hlen : (lastN (prices.take (t + 1)) w).length = min (t + 1) w := by
    rw [length_lastN, List.length_take]
    omega
  rw [hdef, hlen]
  by_cases hg : max 2 (w / 2) ≤ min (t + 1) w
  · rw [if_pos hg, calculate_historical_volatility_isSome_iff, hlen]
    omega
  · rw [if_neg hg]
    simp
    omega

end Collector

lemma getD_map_mul (l : List ℝ) (c : ℝ) (i : ℕ) :
    (l.map (fun x => c * x)).getD i 0 = c * l.getD i 0 := by
  rw [List.getD_eq_getElem?_getD, List.getD_eq_getElem?_getD,
    List.getElem?_map]
  cases l[i]? with
  | none => simp
  | some a => simp

namespace Screener

lemma logRetAt_map_mul (l : List ℝ) {c : ℝ} (hc : c ≠ 0) (i : ℕ) :
    logRetAt (l.map (fun x => c * x)) i = logRetAt l i := by
  unfold logRetAt
  rw [List.length_map]
  by_cases hcond : 1 ≤ i ∧ i < l.length
  · rw [if_pos hcond, if_pos hcond, getD_map_mul, getD_map_mul,
      mul_div_mul_left _ _ hc]
  · rw [if_neg hcond, if_neg hcond]

lemma logRets_map_mul (l : List ℝ) {c : ℝ} (hc : c ≠ 0) :
    logRets (l.map (fun x => c * x)) = logRets l := by
  unfold logRets
  rw [List.length_map]
  exact List.map_congr_left (fun j _ => logRetAt_map_mul l hc j)

lemma hvAt_map_mul (l : List ℝ) {c : ℝ} (hc : c ≠ 0) (w i : ℕ) :
    hvAt (l.map (fun x => c * x)) w i = hvAt l w i := by
  unfold hvAt
  rw [logRets_map_mul l hc]

lemma rmsAt_map_mul (l : List ℝ) {c : ℝ} (hc : c ≠ 0) (a b i : ℕ) :
    rmsAt (l.map (fun x => c * x)) a b i = rmsAt l a b i := by
  unfold rmsAt
  rw [hvAt_map_mul l hc, hvAt_map_mul l hc]

lemma rmsVolAt_map_mul (l : List ℝ) {c : ℝ} (hc : c ≠ 0) (ws : List ℕ)
    (i : ℕ) : rmsVolAt (l.map (fun x => c * x)) ws i = rmsVolAt l ws i := by
  unfold rmsVolAt
  rw [rmsAt_map_mul l hc, rmsAt_map_mul l hc]

lemma trailing_replicate_zero (n : ℕ) {p : ℝ} (hp : p ≠ 0) {w i : ℕ}
    (hwi : w ≤ i) (hin : i < n) :
    ∀ x ∈ trailingLogReturns (List.replicate n p) w i, x = 0 := by
  intro x hx
  unfold trailingLogReturns at hx
  rcases List.mem_map.mp hx with ⟨j, hj, rfl⟩
  have hjw : j < w := List.mem_range.mp hj
  have h1 : (List.replicate n p).getD (i + 1 - w + j) 0 = p := by
    rw [List.getD_eq_getElem?_getD, List.getElem?_replicate,
      if_pos (by omega)]
    rfl
  have h2 : (List.replicate n p).getD (i - w + j) 0 = p := by
    rw [List.getD_eq_getElem?_getD, List.getElem?_replicate,
      if_pos (by omega)]
    rfl
  rw [h1, h2, div_self hp, Real.log_one]

lemma hvAt_replicate (n : ℕ) {p : ℝ} (hp : p ≠ 0) (w i : ℕ) :
    hvAt (List.replicate n p) w i = none ∨
      hvAt (List.replicate n p) w i = some 0 := by
  by_cases hc : 2 ≤ w ∧ w ≤ i ∧ i < n
  · right
    have hin : i < (List.replicate n p).length := by
      rw [List.length_replicate]; exact hc.2.2
    rw [hvAt_eq_trailing _ hc.1 hc.2.1 hin,
      sampleStdVal_eq_zero _ (trailing_replicate_zero n hp hc.2.1 hc.2.2),
      zero_mul]
  · left
    apply Option.not_isSome_iff_eq_none.mp
    rw [hvAt_isSome_iff, List.length_replicate]
    exact hc

end Screener

namespace Collector

lemma cLogRetAt_map_mul (l : List ℝ) {c : ℝ} (hc : c ≠ 0) (i : ℕ) :
    logRetAt (l.map (fun x => c * x)) i = logRetAt l i := by
  unfold logRetAt
  rw [List.length_map]
  by_cases hcond : 1 ≤ i ∧ i < l.length
  · rw [if_pos hcond, if_pos hcond, getD_map_mul, getD_map_mul,
      mul_div_mul_left _ _ hc]
  · rw [if_neg hcond, if_neg hcond]

lemma cLogRets_map_mul (l : List ℝ) {c : ℝ} (hc : c ≠ 0) :
    logRets (l.map (fun x => c * x)) = logRets l := by
  unfold logRets
  rw [List.length_map]
  exact List.map_congr_left (fun j _ => cLogRetAt_map_mul l hc j)

lemma calculate_historical_volatility_map_mul (l : List ℝ) {c : ℝ}
    (hc : c ≠ 0) :
    calculate_historical_volatility (l.map (fun x => c * x)) =
      calculate_historical_volatility l := by
  unfold calculate_historical_volatility
  rw [List.length_map, cLogRets_map_mul l hc]

lemma lastN_map (f : ℝ → ℝ) (l : List ℝ) (w : ℕ) :
    lastN (l.map f) w = (lastN l w).map f := by
  unfold lastN
  rw [List.length_map, List.map_drop]

lemma cHvAt_map_mul (l : List ℝ) {c : ℝ} (hc : c ≠ 0) (w t : ℕ) :
    hvAt (l.map (fun x => c * x)) w t = hvAt l w t := by
  have hslice : lastN ((l.map (fun x => c * x)).take (t + 1)) w =
      (lastN (l.take (t + 1)) w).map (fun x => c * x) := by
    rw [← List.map_take, lastN_map]
  have hdefL : hvAt (l.map (fun x => c * x)) w t =
      if max 2 (w / 2) ≤
          (lastN ((l.map (fun x => c * x)).take (t + 1)) w).length then
        calculate_historical_volatility
          (lastN ((l.map (fun x => c * x)).take (t + 1)) w)
      else none := rfl
  have hdefR : hvAt l w t =
      if max 2 (w / 2) ≤ (lastN (l.take (t + 1)) w).length then
        calculate_historical_volatility (lastN (l.take (t + 1)) w)
      else none := rfl
  rw [hdefL, hdefR, hslice, List.length_map,
    calculate_historical_volatility_map_mul _ hc]

lemma parkinson_map_mul (highs lows : List ℝ) {c : ℝ} (hc : c ≠ 0) :
    calculate_parkinson_volatility (highs.map (fun x => c * x))
        (lows.map (fun x => c * x)) =
      calculate_parkinson_volatility highs lows := by
  unfold calculate_parkinson_volatility
  rw [List.length_map]
  have hz : List.zipWith (fun h l => Real.log (h / l) ^ 2)
      (highs.map (fun x => c * x)) (lows.map (fun x => c * x)) =
      List.zipWith (fun h l => Real.log (h / l) ^ 2) highs lows := by
    have hfun : (fun a b : ℝ => Real.log (c * a / (c * b)) ^ 2) =
        (fun a b : ℝ => Real.log (a / b) ^ 2) := by
      funext a b
      rw [mul_div_mul_left _ _ hc]
    rw [List.zipWith_map, hfun]
  rw [hz]

lemma chv_replicate (k : ℕ) {p : ℝ} (hp : p ≠ 0) :
    calculate_historical_volatility (List.replicate k p) = none ∨
      calculate_historical_volatility (List.replicate k p) = some 0 := by
  unfold calculate_historical_volatility
  by_cases hk : (List.replicate k p).length < 2
  · left
    rw [if_pos hk]
  · rw [if_neg hk]
    set rs := (logRets (List.replicate k p)).reduceOption with hrs
    have hzero : ∀ x ∈ rs, x = 0 := by
      intro x hx
      rcases mem_reduceOption_logRets hx with ⟨j, hj1, hj2, hx0⟩
      rw [List.length_replicate] at hj2
      have h1 : (List.replicate k p).getD j 0 = p := by
        rw [List.getD_eq_getElem?_getD, List.getElem?_replicate,
          if_pos hj2]
        rfl
      have h2 : (List.replicate k p).getD (j - 1) 0 = p := by
        rw [List.getD_eq_getElem?_getD, List.getElem?_replicate,
          if_pos (by omega)]
        rfl
      rw [hx0, h1, h2, div_self hp, Real.log_one]
    unfold sampleStd
    by_cases hlen : rs.length < 2
    · left
      rw [if_pos hlen]
      rfl
    · right
      rw [if_neg hlen, sampleStdVal_eq_zero _ hzero]
      simp

lemma cHvAt_replicate (n : ℕ) {p : ℝ} (hp : p ≠ 0) (w t : ℕ) :
    hvAt (List.replicate n p) w t = none ∨
      hvAt (List.replicate n p) w t = some 0 := by
  have hslice : lastN ((List.replicate n p).take (t + 1)) w =
      List.replicate (min (t + 1) n - (min (t + 1) n - w)) p := by
    rw [List.take_replicate]
    unfold lastN
    rw [List.length_replicate, List.drop_replicate]
  have hdef : hvAt (List.replicate n p) w t =
      if max 2 (w / 2) ≤
          (lastN ((List.replicate n p).take (t + 1)) w).length then
        calculate_historical_volatility
          (lastN ((List.replicate n p).take (t + 1)) w)
      else none := rfl
  rw [hdef, hslice]
  by_cases hg : max 2 (w / 2) ≤
      (List.replicate (min (t + 1) n - (min (t + 1) n - w)) p).length
  · rw [if_pos hg]
    exact chv_replicate _ hp
  · left
    rw [if_neg hg]

end Collector

namespace Screener

lemma hvAt_congr {p q : List ℝ} {t : ℕ}
    (h : p.take (t + 1) = q.take (t + 1)) (w : ℕ) :
    hvAt p w t = hvAt q w t := by
  have hmin := length_min_of_take_eq h
  have hiff : t < p.length ↔ t < q.length := by omega
  by_cases hc : 2 ≤ w ∧ w ≤ t ∧ t < p.length
  · have hcq : t < q.length := hiff.mp hc.2.2
    rw [hvAt_eq_trailing p hc.1 hc.2.1 hc.2.2,
      hvAt_eq_trailing q hc.1 hc.2.1 hcq]
    have htr : trailingLogReturns p w t = trailingLogReturns q w t := by
      unfold trailingLogReturns
      apply List.map_congr_left
      intro j hj
      have hjw : j < w := List.mem_range.mp hj
      rw [getD_of_take_eq h (by omega), getD_of_take_eq h (by omega)]
    rw [htr]
  · have h1 : ¬ (hvAt p w t).isSome := by
      rw [hvAt_isSome_iff]
      exact hc
    have h2 : ¬ (hvAt q w t).isSome := by
      rw [hvAt_isSome_iff]
      intro hcc
      exact hc ⟨hcc.1, hcc.2.1, hiff.mpr hcc.2.2⟩
    rw [Option.not_isSome_iff_eq_none.mp h1,
      Option.not_isSome_iff_eq_none.mp h2]

lemma rmsAt_congr {p q : List ℝ} {t : ℕ}
    (h : p.take (t + 1) = q.take (t + 1)) (a b : ℕ) :
    rmsAt p a b t = rmsAt q a b t := by
  unfold rmsAt
  rw [hvAt_congr h a, hvAt_congr h b]

lemma rmsVolAt_congr {p q : List ℝ} {t : ℕ}
    (h : p.take (t + 1) = q.take (t + 1)) (ws : List ℕ) :
    rmsVolAt p ws t = rmsVolAt q ws t := by
  unfold rmsVolAt
  rw [rmsAt_congr h, rmsAt_congr h]

end Screener

namespace Collector

lemma cHvAt_congr {p q : List ℝ} {t : ℕ}
    (h : p.take (t + 1) = q.take (t + 1)) (w : ℕ) :
    hvAt p w t = hvAt q w t := by
  have hdefL : hvAt p w t =
      if max 2 (w / 2) ≤ (lastN (p.take (t + 1)) w).length then
        calculate_historical_volatility (lastN (p.take (t + 1)) w)
      else none := rfl
  have hdefR : hvAt q w t =
      if max 2 (w / 2) ≤ (lastN (q.take (t + 1)) w).length then
        calculate_historical_volatility (lastN (q.take (t + 1)) w)
      else none := rfl
  rw [hdefL, hdefR, h]

lemma parkinsonAt_congr {p q h1 h2 l1 l2 : List ℝ} {t : ℕ}
    (hp : p.take (t + 1) = q.take (t + 1))
    (hh : h1.take (t + 1) = h2.take (t + 1))
    (hl : l1.take (t + 1) = l2.take (t + 1)) (w : ℕ) :
    parkinsonAt p h1 l1 w t = parkinsonAt q h2 l2 w t := by
  unfold parkinsonAt
  rw [hp, hh, hl]

lemma annualizedFundingAt_congr {f1 f2 : List (Option ℝ)} {t : ℕ}
    (hf : f1.take (t + 1) = f2.take (t + 1)) :
    annualizedFundingAt f1 t = annualizedFundingAt f2 t := by
  unfold annualizedFundingAt
  rw [getD_of_take_eq hf (le_refl t)]

end Collector

namespace Screener

lemma mem_calculate_hv_metrics {closes : List ℝ} {ws : List ℕ} {i : ℕ} :
    i ∈ calculate_hv_metrics closes ws ↔
      Screener.maxWindow ws + 1 ≤ closes.length ∧ i < closes.length ∧
        rowKept closes ws i = true := by
  unfold calculate_hv_metrics
  by_cases hg : closes.length < Screener.maxWindow ws + 1
  · rw [if_pos hg]
    simp
    omega
  · rw [if_neg hg]
    rw [List.mem_filter, List.mem_range]
    constructor
    · rintro ⟨h1, h2⟩
      exact ⟨by omega, h1, h2⟩
    · rintro ⟨_, h1, h2⟩
      exact ⟨h1, h2⟩

lemma rowKept_iff {closes : List ℝ} {ws : List ℕ} {i : ℕ} :
    rowKept closes ws i = true ↔
      (logRetAt closes i).isSome = true ∧
      (∀ w ∈ ws, (hvAt closes w i).isSome = true) ∧
      ((2 ∈ ws ∧ 3 ∈ ws) → (rmsAt closes 2 3 i).isSome = true) ∧
      ((7 ∈ ws ∧ 14 ∈ ws) → (rmsAt closes 7 14 i).isSome = true) ∧
      (rmsVolAt closes ws i).isSome = true := by
  unfold rowKept
  rw [Bool.and_eq_true, Bool.and_eq_true, Bool.and_eq_true,
    Bool.and_eq_true, List.all_eq_true]
  constructor
  · rintro ⟨⟨⟨⟨hlr, hall⟩, h23⟩, h714⟩, hrv⟩
    refine ⟨hlr, hall, ?_, ?_, hrv⟩
    · intro hmem
      rwa [if_pos hmem] at h23
    · intro hmem
      rwa [if_pos hmem] at h714
  · rintro ⟨hlr, hall, h23, h714, hrv⟩
    refine ⟨⟨⟨⟨hlr, hall⟩, ?_⟩, ?_⟩, hrv⟩
    · by_cases hmem : 2 ∈ ws ∧ 3 ∈ ws
      · rw [if_pos hmem]
        exact h23 hmem
      · rw [if_neg hmem]
    · by_cases hmem : 7 ∈ ws ∧ 14 ∈ ws
      · rw [if_pos hmem]
        exact h714 hmem
      · rw [if_neg hmem]

end Screener

namespace Screener

lemma black_scholes_call (Phi phi : ℝ → ℝ) (S K T r sigma : ℝ)
    (hT : 0 < T) (hs : 0 < sigma) :
    black_scholes Phi phi S K T r sigma "call" =
      (S * Phi (bs_d1 S K T r sigma) -
         K * Real.exp (-r * T) * Phi (bs_d2 S K T r sigma),
       Phi (bs_d1 S K T r sigma),
       phi (bs_d1 S K T r sigma) / (S * sigma * Real.sqrt T),
       -(S * phi (bs_d1 S K T r sigma) * sigma / (2 * Real.sqrt T)) / 365 -
         r * K * Real.exp (-r * T) * Phi (bs_d2 S K T r sigma) / 365,
       S * phi (bs_d1 S K T r sigma) * Real.sqrt T / 100) := by
  unfold black_scholes
  rw [if_neg (by push_neg; exact ⟨hT, hs⟩)]
  simp

lemma black_scholes_put (Phi phi : ℝ → ℝ) (S K T r sigma : ℝ)
    (hT : 0 < T) (hs : 0 < sigma) :
    black_scholes Phi phi S K T r sigma "put" =
      (K * Real.exp (-r * T) * Phi (-bs_d2 S K T r sigma) -
         S * Phi (-bs_d1 S K T r sigma),
       -Phi (-bs_d1 S K T r sigma),
       phi (bs_d1 S K T r sigma) / (S * sigma * Real.sqrt T),
       -(S * phi (bs_d1 S K T r sigma) * sigma / (2 * Real.sqrt T)) / 365 -
         r * K * Real.exp (-r * T) * Phi (-bs_d2 S K T r sigma) / 365,
       S * phi (bs_d1 S K T r sigma) * Real.sqrt T / 100) := by
  unfold black_scholes
  rw [if_neg (by push_neg; exact ⟨hT, hs⟩)]
  simp

end Screener

namespace Screener

lemma bs_d1_atm_zero_rate (S T sigma : ℝ) (hS : 0 < S) (hT : 0 < T)
    (hs : 0 < sigma) :
    bs_d1 S S T 0 sigma = sigma * Real.sqrt T / 2 := by
  unfold bs_d1
  rw [div_self (ne_of_gt hS), Real.log_one]
  have hsT : (0 : ℝ) < Real.sqrt T := Real.sqrt_pos.mpr hT
  have hTT : Real.sqrt T * Real.sqrt T = T := Real.mul_self_sqrt hT.le
  rw [div_eq_iff (by positivity : sigma * Real.sqrt T ≠ 0)]
  linear_combination (sigma ^ 2 / 2) * hTT.symm

lemma bs_d2_atm_zero_rate (S T sigma : ℝ) (hS : 0 < S) (hT : 0 < T)
    (hs : 0 < sigma) :
    bs_d2 S S T 0 sigma = -bs_d1 S S T 0 sigma := by
  unfold bs_d2
  rw [bs_d1_atm_zero_rate S T sigma hS hT hs]
  ring

end Screener

/-- C3: in the embedded `black_scholes` with `T > 0` and `sigma > 0`,
gamma and vega are identical for the call and the put at the same
inputs (first two conjuncts).  The third and fourth conjuncts document
how the code actually treats theta: the put theta, like the call theta,
SUBTRACTS its discounted-strike carry term
`r * K * exp (-r*T) * Phi (-d2) / 365`, so the call/put theta difference
is `r * K * exp (-r*T) * (Phi (-d2) - Phi (d2)) / 365` rather than the
opposite-sign carry relation of the textbook Black-Scholes formulas
that the claim describes.  This pins down the code bug in the put
branch of src/hv_screener_enhanced.py lines 339-342. -/
theorem bs_put_theta_carry_same_sign :
    ∀ (Phi phi : ℝ → ℝ) (S K T r sigma : ℝ), 0 < T → 0 < sigma →
      ((Screener.black_scholes Phi phi S K T r sigma "call").2.2.1 =
        (Screener.black_scholes Phi phi S K T r sigma "put").2.2.1) ∧
      ((Screener.black_scholes Phi phi S K T r sigma "call").2.2.2.2 =
        (Screener.black_scholes Phi phi S K T r sigma "put").2.2.2.2) ∧
      ((Screener.black_scholes Phi phi S K T r sigma "call").2.2.2.1 -
        (Screener.black_scholes Phi phi S K T r sigma "put").2.2.2.1 =
          r * K * Real.exp (-r * T) *
            (Phi (-Screener.bs_d2 S K T r sigma) -
              Phi (Screener.bs_d2 S K T r sigma)) / 365) ∧
      ((Screener.black_scholes Phi phi S K T r sigma "put").2.2.2.1 =
        -(S * phi (Screener.bs_d1 S K T r sigma) * sigma /
            (2 * Real.sqrt T)) / 365 -
          r * K * Real.exp (-r * T) *
            Phi (-Screener.bs_d2 S K T r sigma) / 365) := by
  intro Phi phi S K T r sigma hT hs
  rw [Screener.black_scholes_call Phi phi S K T r sigma hT hs,
    Screener.black_scholes_put Phi phi S K T r sigma hT hs]
  refine ⟨rfl, rfl, by ring, rfl⟩

/-- Witness for C3 at concrete inputs. -/
theorem bs_put_theta_carry_same_sign_witness :
    ((Screener.black_scholes (fun x => x) (fun x => x)
        100 100 1 1 1 "call").2.2.1 =
      (Screener.black_scholes (fun x => x) (fun x => x)
        100 100 1 1 1 "put").2.2.1) ∧
    ((Screener.black_scholes (fun x => x) (fun x => x)
        100 100 1 1 1 "call").2.2.2.2 =
      (Screener.black_scholes (fun x => x) (fun x => x)
        100 100 1 1 1 "put").2.2.2.2) ∧
    ((Screener.black_scholes (fun x => x) (fun x => x)
        100 100 1 1 1 "call").2.2.2.1 -
      (Screener.black_scholes (fun x => x) (fun x => x)
        100 100 1 1 1 "put").2.2.2.1 =
        1 * 100 * Real.exp (-1 * 1) *
          ((-Screener.bs_d2 100 100 1 1 1) -
            (Screener.bs_d2 100 100 1 1 1)) / 365) ∧
    ((Screener.black_scholes (fun x => x) (fun x => x)
        100 100 1 1 1 "put").2.2.2.1 =
      -(100 * Screener.bs_d1 100 100 1 1 1 * 1 /
          (2 * Real.sqrt 1)) / 365 -
        1 * 100 * Real.exp (-1 * 1) *
          (-Screener.bs_d2 100 100 1 1 1) / 365) :=
  bs_put_theta_carry_same_sign (fun x => x) (fun x => x) 100 100 1 1 1
    (by norm_num) (by norm_num)

/-- C4: whenever `T ≤ 0` or `sigma ≤ 0` the pricer short-circuits to the
all-zero tuple `(price, delta, gamma, theta, vega) = (0, 0, 0, 0, 0)`. -/
theorem bs_degenerate_all_zero :
    ∀ (Phi phi : ℝ → ℝ) (S K T r sigma : ℝ) (option_type : String),
      T ≤ 0 ∨ sigma ≤ 0 →
        Screener.black_scholes Phi phi S K T r sigma option_type =
          (0, 0, 0, 0, 0) := by
  intro Phi phi S K T r sigma option_type h
  unfold Screener.black_scholes
  rw [if_pos h]

/-- Witness for C4 at the claim's concrete input
`price(100, 100, 0, 0.05, 0.3, call)`. -/
theorem bs_degenerate_all_zero_witness :
    Screener.black_scholes (fun x => x) (fun x => x)
      100 100 0 0.05 0.3 "call" = (0, 0, 0, 0, 0) :=
  bs_degenerate_all_zero (fun x => x) (fun x => x) 100 100 0 0.05 0.3
    "call" (Or.inl (by norm_num))

/-- C5: at the money (`K = S`), with zero rate and equal expiry, the
call and the put have the same price, for every cdf input `Phi`:
with `r = 0` and `K = S` the code's `d2` equals `-d1`, making the two
price formulas coincide. -/
theorem bs_atm_zero_rate_call_eq_put :
    ∀ (Phi phi : ℝ → ℝ) (S T sigma : ℝ), 0 < S → 0 < T → 0 < sigma →
      (Screener.black_scholes Phi phi S S T 0 sigma "call").1 =
        (Screener.black_scholes Phi phi S S T 0 sigma "put").1 := by
  intro Phi phi S T sigma hS hT hs
  rw [Screener.black_scholes_call Phi phi S S T 0 sigma hT hs,
    Screener.black_scholes_put Phi phi S S T 0 sigma hT hs]
  have hd2 := Screener.bs_d2_atm_zero_rate S T sigma hS hT hs
  rw [hd2, neg_neg]
  have hexp : Real.exp (-0 * T) = 1 := by
    norm_num
  rw [hexp]
  ring

/-- Witness for C5 at concrete inputs. -/
theorem bs_atm_zero_rate_call_eq_put_witness :
    (Screener.black_scholes (fun x => x) (fun x => x)
        100 100 1 0 1 "call").1 =
      (Screener.black_scholes (fun x => x) (fun x => x)
        100 100 1 0 1 "put").1 :=
  bs_atm_zero_rate_call_eq_put (fun x => x) (fun x => x) 100 1 1
    (by norm_num) (by norm_num) (by norm_num)

/-- C1 (amended): in the screener engine, whose windows are the
configurable ones, `hv_w` at row `i` is defined exactly when `2 ≤ w`,
`w ≤ i` and `i` is in range, and where defined it equals the sample
standard deviation of the `w` trailing log returns ending at date `i`,
multiplied by `sqrt 365`.  In particular, on the scenario series with
window 2 the metric is undefined at index 1 (`1 < 2`) and takes the
claimed value at index 2. -/
theorem screener_hv_matches_trailing_std :
    ∀ (closes : List ℝ) (w i : ℕ),
      ((Screener.hvAt closes w i).isSome ↔
        2 ≤ w ∧ w ≤ i ∧ i < closes.length) ∧
      (2 ≤ w → w ≤ i → i < closes.length →
        Screener.hvAt closes w i =
          some (sampleStdVal (trailingLogReturns closes w i) *
            Real.sqrt 365)) :=
  fun closes w i =>
    ⟨Screener.hvAt_isSome_iff closes w i,
     fun h2 hwi hin => Screener.hvAt_eq_trailing closes h2 hwi hin⟩

/-- Witness for C1 on the spec's scenario series `[100,101,99,102,98]`
with window 2 at date index 2: the screener value is the standard
deviation of `[ln (101/100), ln (99/101)]` times `sqrt 365`. -/
theorem screener_hv_matches_trailing_std_witness :
    Screener.hvAt scenarioPrices 2 2 =
      some (sampleStdVal (trailingLogReturns scenarioPrices 2 2) *
        Real.sqrt 365) :=
  (screener_hv_matches_trailing_std scenarioPrices 2 2).2
    (by norm_num) (by norm_num) (by decide)

/-- C1 counterexample: the claim's cited code, the collector's
`calculate_hv_metrics`, slices the trailing `w = 2` PRICES (hence at
most one log return) and is therefore undefined (NaN) at date index 2
of the scenario series, where the claim asserts the value
`std([ln (101/100), ln (99/101)]) * sqrt 365`. -/
theorem collector_hv_scenario_window2_undefined :
    Collector.hvAt scenarioPrices 2 2 = none ∧
      Collector.hvAt scenarioPrices 2 2 ≠
        some (sampleStdVal (trailingLogReturns scenarioPrices 2 2) *
          Real.sqrt 365) := by
  refine ⟨rfl, ?_⟩
  intro h
  rw [show Collector.hvAt scenarioPrices 2 2 = none from rfl] at h
  exact Option.noConfusion h

/-- C2 (amended): the collector's per-window `hv_w` field at row `t` is
defined exactly when the trailing slice (of length `min (t+1) w`)
contains at least `max 3 (w / 2)` observations — `w / 2` being integer
(floor) division as in the code's `window // 2`, and the lower bound
being 3 rather than 2 because the slice of `L` prices yields `L - 1`
log returns of which the sample standard deviation needs at least 2.
With exactly that many observations the estimator produces a value, and
with one fewer it produces the undefined sentinel (`none`, never 0). -/
theorem collector_hv_defined_iff_min_obs :
    ∀ (prices : List ℝ) (w t : ℕ), t < prices.length →
      ((Collector.hvAt prices w t).isSome ↔
        max 3 (w / 2) ≤ min (t + 1) w) :=
  fun prices w t ht => Collector.cHvAt_isSome_iff prices w t ht

/-- Witness for C2: on a three-row series at `t = 2` with `w = 7` the
slice has `min 3 7 = 3` observations and `max 3 (7/2) = 3 ≤ 3`, so the
estimator is defined. -/
theorem collector_hv_defined_iff_min_obs_witness :
    (Collector.hvAt threeObs 7 2).isSome ↔
      max 3 (7 / 2) ≤ min (2 + 1) 7 :=
  collector_hv_defined_iff_min_obs threeObs 7 2 (by decide)

/-- C2 counterexample: with window 7 and a trailing slice of only 3
observations (one fewer than the claimed threshold
`max 2 (ceil (7/2)) = 4`, where `ceil (7/2) = (7+1)/2 = 4`), the code's
estimator is nevertheless defined, because the code gates at
`max 2 (7 // 2) = 3` (floor division). -/
theorem collector_hv_defined_below_spec_threshold :
    threeObs.length = 3 ∧ 3 < max 2 ((7 + 1) / 2) ∧
      (Collector.hvAt threeObs 7 2).isSome = true :=
  ⟨rfl, by norm_num, rfl⟩

/-- C6: multiplying every price by a positive constant `c` leaves the
log-return column, every screener `hv_w`, every RMS blend, the
representative RMS, every collector `hv_w`, and the Parkinson estimator
(under uniform high/low scaling) unchanged. -/
theorem vol_metrics_scale_invariant :
    ∀ (closes highs lows : List ℝ) (c : ℝ), 0 < c →
      Screener.logRets (closes.map (fun x => c * x)) =
        Screener.logRets closes ∧
      (∀ w i, Screener.hvAt (closes.map (fun x => c * x)) w i =
        Screener.hvAt closes w i) ∧
      (∀ a b i, Screener.rmsAt (closes.map (fun x => c * x)) a b i =
        Screener.rmsAt closes a b i) ∧
      (∀ ws i, Screener.rmsVolAt (closes.map (fun x => c * x)) ws i =
        Screener.rmsVolAt closes ws i) ∧
      (∀ w t, Collector.hvAt (closes.map (fun x => c * x)) w t =
        Collector.hvAt closes w t) ∧
      Collector.calculate_parkinson_volatility
          (highs.map (fun x => c * x)) (lows.map (fun x => c * x)) =
        Collector.calculate_parkinson_volatility highs lows := by
  intro closes highs lows c hc
  have hne : c ≠ 0 := ne_of_gt hc
  exact ⟨Screener.logRets_map_mul closes hne,
    fun w i => Screener.hvAt_map_mul closes hne w i,
    fun a b i => Screener.rmsAt_map_mul closes hne a b i,
    fun ws i => Screener.rmsVolAt_map_mul closes hne ws i,
    fun w t => Collector.cHvAt_map_mul closes hne w t,
    Collector.parkinson_map_mul highs lows hne⟩

/-- Witness for C6 at a concrete series and `c = 2`. -/
theorem vol_metrics_scale_invariant_witness :
    Screener.logRets (([1, 2] : List ℝ).map (fun x => 2 * x)) =
      Screener.logRets ([1, 2] : List ℝ) ∧
    (∀ w i, Screener.hvAt (([1, 2] : List ℝ).map (fun x => 2 * x)) w i =
      Screener.hvAt ([1, 2] : List ℝ) w i) ∧
    (∀ a b i, Screener.rmsAt (([1, 2] : List ℝ).map (fun x => 2 * x)) a b i =
      Screener.rmsAt ([1, 2] : List ℝ) a b i) ∧
    (∀ ws i, Screener.rmsVolAt (([1, 2] : List ℝ).map (fun x => 2 * x)) ws i =
      Screener.rmsVolAt ([1, 2] : List ℝ) ws i) ∧
    (∀ w t, Collector.hvAt (([1, 2] : List ℝ).map (fun x => 2 * x)) w t =
      Collector.hvAt ([1, 2] : List ℝ) w t) ∧
    Collector.calculate_parkinson_volatility
        (([4, 5] : List ℝ).map (fun x => 2 * x))
        (([1, 3] : List ℝ).map (fun x => 2 * x)) =
      Collector.calculate_parkinson_volatility ([4, 5] : List ℝ)
        ([1, 3] : List ℝ) :=
  vol_metrics_scale_invariant [1, 2] [4, 5] [1, 3] 2 (by norm_num)

/-- C7: on a constant positive price series, every `hv_w` of both the
screener and the collector is either undefined or exactly 0 (all log
returns are `ln 1 = 0`, hence the standard deviation is 0). -/
theorem constant_series_hv_zero :
    ∀ (n : ℕ) (p : ℝ) (w i t : ℕ), 0 < p →
      (Screener.hvAt (List.replicate n p) w i = none ∨
        Screener.hvAt (List.replicate n p) w i = some 0) ∧
      (Collector.hvAt (List.replicate n p) w t = none ∨
        Collector.hvAt (List.replicate n p) w t = some 0) :=
  fun n p w i t hp =>
    ⟨Screener.hvAt_replicate n (ne_of_gt hp) w i,
     Collector.cHvAt_replicate n (ne_of_gt hp) w t⟩

/-- Witness for C7 on a concrete constant series. -/
theorem constant_series_hv_zero_witness :
    (Screener.hvAt (List.replicate 5 (1 : ℝ)) 2 2 = none ∨
      Screener.hvAt (List.replicate 5 (1 : ℝ)) 2 2 = some 0) ∧
    (Collector.hvAt (List.replicate 5 (1 : ℝ)) 2 4 = none ∨
      Collector.hvAt (List.replicate 5 (1 : ℝ)) 2 4 = some 0) :=
  constant_series_hv_zero 5 1 2 2 4 (by norm_num)

/-- Inversion for the provider-fetch acceptance test. -/
lemma acceptFetch_eq_some {o : Option (List ℝ)} {d : List ℝ}
    (h : Collector.acceptFetch o = some d) : o = some d := by
  cases o with
  | none => exact absurd h (by simp [Collector.acceptFetch])
  | some x =>
    by_cases hx : 0 < x.length
    · have hax : Collector.acceptFetch (some x) = some x := by
        simp [Collector.acceptFetch, hx]
      rw [hax] at h
      exact h
    · have hax : Collector.acceptFetch (some x) = none := by
        simp [Collector.acceptFetch, hx]
      rw [hax] at h
      exact absurd h (by simp)

/-- C8: providers are tried in the fixed order CoinGecko, Binance,
Kraken.  First conjunct: the resolved series, when present, is exactly
one provider's series and is tagged with that provider alone (no
merging).  Second conjunct: when CoinGecko succeeds, the result is its
series tagged "coingecko" and neither Binance nor Kraken appears in the
attempted list.  Third conjunct: when CoinGecko yields no data and
Binance returns a non-empty series, the result is tagged "binance" and
Kraken is never queried. -/
theorem fallback_first_nonempty_wins :
    ∀ (hasCgId : Bool) (cg bin kr : Option (List ℝ)),
      ((Collector.collect_asset_data hasCgId cg bin kr).price_data = none ∨
        ∃ d, (Collector.collect_asset_data hasCgId cg bin kr).price_data =
            some d ∧
          (((Collector.collect_asset_data hasCgId cg bin kr).data_sources =
              ["coingecko"] ∧ cg = some d) ∨
           ((Collector.collect_asset_data hasCgId cg bin kr).data_sources =
              ["binance"] ∧ bin = some d) ∨
           ((Collector.collect_asset_data hasCgId cg bin kr).data_sources =
              ["kraken"] ∧ kr = some d))) ∧
      (∀ d, hasCgId = true → cg = some d → 0 < d.length →
        Collector.collect_asset_data hasCgId cg bin kr =
          ⟨["coingecko"], some d, ["coingecko"]⟩) ∧
      (∀ d, Collector.acceptFetch cg = none → bin = some d →
          0 < d.length →
        (Collector.collect_asset_data hasCgId cg bin kr).data_sources =
            ["binance"] ∧
          (Collector.collect_asset_data hasCgId cg bin kr).price_data =
            some d ∧
          "kraken" ∉
            (Collector.collect_asset_data hasCgId cg bin kr).attempted) := by
  intro hasCgId cg bin kr
  refine ⟨?_, ?_, ?_⟩
  · rcases h1 : (if hasCgId then Collector.acceptFetch cg else none) with
      _ | d1
    · rcases h2 : Collector.acceptFetch bin with _ | d2
      · rcases h3 : Collector.acceptFetch kr with _ | d3
        · left
          simp [Collector.collect_asset_data, h1, h2, h3]
        · right
          refine ⟨d3, ?_, Or.inr (Or.inr ⟨?_, acceptFetch_eq_some h3⟩)⟩ <;>
            simp [Collector.collect_asset_data, h1, h2, h3]
      · right
        refine ⟨d2, ?_, Or.inr (Or.inl ⟨?_, acceptFetch_eq_some h2⟩)⟩ <;>
          simp [Collector.collect_asset_data, h1, h2]
    · right
      have hcg : cg = some d1 := by
        cases hc : hasCgId with
        | false => rw [hc] at h1; simp at h1
        | true =>
          rw [hc] at h1
          simp at h1
          exact acceptFetch_eq_some h1
      refine ⟨d1, ?_, Or.inl ⟨?_, hcg⟩⟩ <;>
        simp [Collector.collect_asset_data, h1]
  · intro d hcgid hcg hlen
    subst hcgid
    subst hcg
    have hacc : Collector.acceptFetch (some d) = some d := by
      simp [Collector.acceptFetch, hlen]
    simp [Collector.collect_asset_data, hacc]
  · intro d hcgnone hbin hlen
    subst hbin
    have hacc : Collector.acceptFetch (some d) = some d := by
      simp [Collector.acceptFetch, hlen]
    refine ⟨?_, ?_, ?_⟩ <;>
      cases hasCgId <;>
        simp [Collector.collect_asset_data, hcgnone, hacc]

/-- Witness for C8: the spec's fallback scenario, CoinGecko yielding no
data and Binance succeeding with a one-row series. -/
theorem fallback_first_nonempty_wins_witness :
    Collector.AssetResult.data_sources
        (Collector.collect_asset_data true none (some [1]) (some [2])) =
      ["binance"] ∧
    Collector.AssetResult.price_data
        (Collector.collect_asset_data true none (some [1]) (some [2])) =
      some [1] ∧
    "kraken" ∉ Collector.AssetResult.attempted
        (Collector.collect_asset_data true none (some [1]) (some [2])) :=
  (fallback_first_nonempty_wins true none (some [1]) (some [2])).2.2 [1]
    rfl rfl (by norm_num)

/-- C9: every per-date metric at date `t` — the screener's `hv_w`, its
RMS blends and representative RMS, and the collector's `hv_w`,
Parkinson estimator and annualized funding rate — depends only on the
observations up to and including row `t`: two input series agreeing on
their first `t + 1` rows produce identical metrics at `t`, so changing
observations strictly after `t` never changes the record at `t`. -/
theorem per_date_metrics_no_lookahead :
    ∀ (p q hs1 hs2 ls1 ls2 : List ℝ) (f1 f2 : List (Option ℝ)) (t : ℕ),
      p.take (t + 1) = q.take (t + 1) →
      hs1.take (t + 1) = hs2.take (t + 1) →
      ls1.take (t + 1) = ls2.take (t + 1) →
      f1.take (t + 1) = f2.take (t + 1) →
      ∀ (w a b : ℕ) (ws : List ℕ),
        Screener.hvAt p w t = Screener.hvAt q w t ∧
        Screener.rmsAt p a b t = Screener.rmsAt q a b t ∧
        Screener.rmsVolAt p ws t = Screener.rmsVolAt q ws t ∧
        Collector.hvAt p w t = Collector.hvAt q w t ∧
        Collector.parkinsonAt p hs1 ls1 w t =
          Collector.parkinsonAt q hs2 ls2 w t ∧
        Collector.annualizedFundingAt f1 t =
          Collector.annualizedFundingAt f2 t :=
  fun _ _ _ _ _ _ _ _ _ hp hh hl hf w a b ws =>
    ⟨Screener.hvAt_congr hp w, Screener.rmsAt_congr hp a b,
     Screener.rmsVolAt_congr hp ws, Collector.cHvAt_congr hp w,
     Collector.parkinsonAt_congr hp hh hl w,
     Collector.annualizedFundingAt_congr hf⟩

/-- Witness for C9: two series agreeing on their first two rows but
differing afterwards give the same metrics at `t = 1`. -/
theorem per_date_metrics_no_lookahead_witness :
    Screener.hvAt [1, 2] 2 1 = Screener.hvAt [1, 2, 3] 2 1 ∧
    Screener.rmsAt [1, 2] 2 3 1 = Screener.rmsAt [1, 2, 3] 2 3 1 ∧
    Screener.rmsVolAt [1, 2] [2, 3] 1 =
      Screener.rmsVolAt [1, 2, 3] [2, 3] 1 ∧
    Collector.hvAt [1, 2] 2 1 = Collector.hvAt [1, 2, 3] 2 1 ∧
    Collector.parkinsonAt [1, 2] [4, 5] [1, 3] 2 1 =
      Collector.parkinsonAt [1, 2, 3] [4, 5, 6] [1, 3, 2] 2 1 ∧
    Collector.annualizedFundingAt [none, some 1] 1 =
      Collector.annualizedFundingAt [none, some 1, some 2] 1 :=
  per_date_metrics_no_lookahead [1, 2] [1, 2, 3] [4, 5] [4, 5, 6]
    [1, 3] [1, 3, 2] [none, some 1] [none, some 1, some 2] 1
    rfl rfl rfl rfl 2 2 3 [2, 3]

/-- C10: the screener's `calculate_hv_metrics` has no row at all when
the input has fewer than `max(vol_windows) + 1` rows (first conjunct:
every member forces the length bound), and every row of the result has
every computed column defined — the log return, each `hv_w`, the RMS
blends that exist, and the representative RMS — since rows containing
any NaN are dropped entirely; in particular the first row (and every
row before each configured window `w`) of the input series is omitted. -/
theorem screener_result_rows_fully_defined :
    ∀ (closes : List ℝ) (ws : List ℕ) (i : ℕ),
      i ∈ Screener.calculate_hv_metrics closes ws →
        Screener.maxWindow ws + 1 ≤ closes.length ∧
        (Screener.logRetAt closes i).isSome = true ∧
        (∀ w ∈ ws, (Screener.hvAt closes w i).isSome = true) ∧
        ((2 ∈ ws ∧ 3 ∈ ws) →
          (Screener.rmsAt closes 2 3 i).isSome = true) ∧
        ((7 ∈ ws ∧ 14 ∈ ws) →
          (Screener.rmsAt closes 7 14 i).isSome = true) ∧
        (Screener.rmsVolAt closes ws i).isSome = true ∧
        1 ≤ i ∧ (∀ w ∈ ws, w ≤ i) := by
  intro closes ws i h
  rcases Screener.mem_calculate_hv_metrics.mp h with ⟨hmax, hlen, hkept⟩
  rcases Screener.rowKept_iff.mp hkept with ⟨hlr, hall, h23, h714, hrv⟩
  refine ⟨hmax, hlr, hall, h23, h714, hrv, ?_, ?_⟩
  · exact ((Screener.logRetAt_isSome_iff closes i).mp hlr).1
  · intro w hw
    exact ((Screener.hvAt_isSome_iff closes w i).mp (hall w hw)).2.1

/-- Witness for C10: on the five-row series `[1,2,1,2,1]` with windows
`[2,3]`, row 3 is in the result and all its columns are defined. -/
theorem screener_result_rows_fully_defined_witness :
    Screener.maxWindow [2, 3] + 1 ≤ fiveObs.length ∧
    (Screener.logRetAt fiveObs 3).isSome = true ∧
    (∀ w ∈ [2, 3], (Screener.hvAt fiveObs w 3).isSome = true) ∧
    ((2 ∈ [2, 3] ∧ 3 ∈ [2, 3]) →
      (Screener.rmsAt fiveObs 2 3 3).isSome = true) ∧
    ((7 ∈ [2, 3] ∧ 14 ∈ [2, 3]) →
      (Screener.rmsAt fiveObs 7 14 3).isSome = true) ∧
    (Screener.rmsVolAt fiveObs [2, 3] 3).isSome = true ∧
    1 ≤ 3 ∧ (∀ w ∈ [2, 3], w ≤ 3) :=
  screener_result_rows_fully_defined fiveObs [2, 3] 3 (by
    have h : Screener.calculate_hv_metrics fiveObs [2, 3] = [3, 4] := rfl
    rw [h]
    decide)

end HVDash
